import Mathlib

/-!
Verification of the caro-bus core against its specification.

The development shallowly embeds the Rust sources:

* `caro-bus-common/src/messages.rs` — message model, wire framing and the
  incremental `parse_buffer` routine;
* `caro-bus-common/src/call_registry.rs` — the per-peer call registry;
* `hub/src/client.rs` — the hub's per-client handler (its own, older message
  shape with `ServiceRequest`);
* `caro-service/src/state.rs` — the typed state wrapper.

Machine integers are `Nat`/`Int` with explicit `% 2 ^ w` where overflow can
occur; a byte is `Fin 256`; fallible operations return `Option`/`Except`;
panics are an explicit `Outcome.panicked` value.  External collaborators that
are not part of the sources (the bson serialization crate, the permission
oracle, the client-library state primitive) are modelled from the
specification and marked as such in their doc comments.
-/

/-- A single octet of the wire format. -/
abbrev Byte := Fin 256

/-- Opaque self-describing payload documents (`bson::Bson` values carried in
method parameters, returns and signals) are kept as serialized blobs at the
core layer, per the specification's data-model section. -/
abbrev Bson := List Byte

/-- Modelled from the spec: the wire-visible error taxonomy of
`caro-bus-common/src/errors.rs`, which is referenced by the sources but not
among them (§7 of the spec). -/
inductive BusError
  | InvalidProtocol
  | NotAllowed
  | ServiceNotFound
  | NameAlreadyRegistered
  | AlreadyRegistered
  | Internal
deriving DecidableEq, Repr

/-! ## Little-endian integer fields of the wire codec -/

/-- Four bytes, little endian (the `i32` length prefix field and other
32-bit fields of the document encoding). -/
def encodeU32 (n : Nat) : List Byte :=
  [⟨n % 256, by omega⟩, ⟨n / 256 % 256, by omega⟩,
   ⟨n / 65536 % 256, by omega⟩, ⟨n / 16777216 % 256, by omega⟩]

/-- Consume a little-endian 32-bit field from the front of a buffer. -/
def decodeU32 : List Byte → Option (Nat × List Byte)
  | b0 :: b1 :: b2 :: b3 :: rest =>
      some (b0.val + 256 * b1.val + 65536 * b2.val + 16777216 * b3.val, rest)
  | _ => none

/-- Total read of the length prefix, `0` on a short buffer; used to state the
header arithmetic of `parse_buffer`. -/
def readU32 : List Byte → Nat
  | b0 :: b1 :: b2 :: b3 :: _ =>
      b0.val + 256 * b1.val + 65536 * b2.val + 16777216 * b3.val
  | _ => 0

/-- Eight bytes, little endian (`u64` fields such as `seq`). -/
def encodeU64 (n : Nat) : List Byte :=
  encodeU32 (n % 2 ^ 32) ++ encodeU32 (n / 2 ^ 32)

/-- Consume a little-endian 64-bit field. -/
def decodeU64 (l : List Byte) : Option (Nat × List Byte) :=
  match decodeU32 l with
  | some (lo, r) =>
      match decodeU32 r with
      | some (hi, r2) => some (lo + 2 ^ 32 * hi, r2)
      | none => none
  | none => none

theorem decodeU32_encodeU32 (n : Nat) (h : n < 2 ^ 32) (r : List Byte) :
    decodeU32 (encodeU32 n ++ r) = some (n, r) := by
  simp only [encodeU32, List.cons_append, List.nil_append, decodeU32]
  refine congrArg some (Prod.ext ?_ rfl)
  show n % 256 + 256 * (n / 256 % 256) + 65536 * (n / 65536 % 256)
      + 16777216 * (n / 16777216 % 256) = n
  omega

theorem readU32_encodeU32 (n : Nat) (h : n < 2 ^ 32) (r : List Byte) :
    readU32 (encodeU32 n ++ r) = n := by
  simp only [encodeU32, List.cons_append, List.nil_append, readU32]
  omega

theorem decodeU64_encodeU64 (n : Nat) (h : n < 2 ^ 64) (r : List Byte) :
    decodeU64 (encodeU64 n ++ r) = some (n, r) := by
  have hlo : n % 2 ^ 32 < 2 ^ 32 := Nat.mod_lt _ (by norm_num)
  have hhi : n / 2 ^ 32 < 2 ^ 32 := by omega
  simp only [encodeU64, List.append_assoc, decodeU64,
    decodeU32_encodeU32 _ hlo, decodeU32_encodeU32 _ hhi]
  refine congrArg some (Prod.ext ?_ rfl)
  show n % 2 ^ 32 + 2 ^ 32 * (n / 2 ^ 32) = n
  omega

theorem decodeU32_length {l : List Byte} {n : Nat} {r : List Byte}
    (h : decodeU32 l = some (n, r)) : l.length = 4 + r.length := by
  unfold decodeU32 at h
  split at h
  · cases h
    simp
    omega
  · cases h

theorem decodeU64_length {l : List Byte} {n : Nat} {r : List Byte}
    (h : decodeU64 l = some (n, r)) : l.length = 8 + r.length := by
  unfold decodeU64 at h
  split at h
  next lo r1 h1 =>
    split at h
    next hi r2 h2 =>
      cases h
      have e1 := decodeU32_length h1
      have e2 := decodeU32_length h2
      omega
    · cases h
  · cases h

/-! ## Character, string, blob and signed-integer fields -/

/-- A character is stored as its 32-bit scalar value. -/
def encodeChar (c : Char) : List Byte := encodeU32 c.toNat

/-- Consume one character. -/
def decodeChar (l : List Byte) : Option (Char × List Byte) :=
  match decodeU32 l with
  | some (n, r) => some (Char.ofNat n, r)
  | none => none

/-- Encode a list of characters back to back. -/
def encodeChars : List Char → List Byte
  | [] => []
  | c :: cs => encodeChar c ++ encodeChars cs

/-- Consume exactly `n` characters. -/
def decodeChars : Nat → List Byte → Option (List Char × List Byte)
  | 0, l => some ([], l)
  | n + 1, l =>
      match decodeChar l with
      | some (c, r) =>
          match decodeChars n r with
          | some (cs, r2) => some (c :: cs, r2)
          | none => none
      | none => none

/-- A string is its character count followed by its characters. -/
def encodeString (s : String) : List Byte :=
  encodeU32 s.data.length ++ encodeChars s.data

/-- Consume one string field. -/
def decodeString (l : List Byte) : Option (String × List Byte) :=
  match decodeU32 l with
  | some (n, r) =>
      match decodeChars n r with
      | some (cs, r2) => some (⟨cs⟩, r2)
      | none => none
  | none => none

/-- An opaque blob is its byte count followed by its bytes. -/
def encodeBlob (b : Bson) : List Byte := encodeU32 b.length ++ b

/-- Consume one blob field. -/
def decodeBlob (l : List Byte) : Option (Bson × List Byte) :=
  match decodeU32 l with
  | some (n, r) => if n ≤ r.length then some (r.take n, r.drop n) else none
  | none => none

/-- A signed 64-bit field in two's complement. -/
def encodeI64 (i : Int) : List Byte := encodeU64 (i % (2 : Int) ^ 64).toNat

/-- Consume one signed 64-bit field. -/
def decodeI64 (l : List Byte) : Option (Int × List Byte) :=
  match decodeU64 l with
  | some (n, r) =>
      some (if n < 2 ^ 63 then (n : Int) else (n : Int) - 2 ^ 64, r)
  | none => none

theorem decodeChar_encodeChar (c : Char) (r : List Byte) :
    decodeChar (encodeChar c ++ r) = some (c, r) := by
  have hb : c.toNat < 2 ^ 32 := by
    have h := c.val.val.isLt
    simpa [Char.toNat, UInt32.toNat] using h
  simp [decodeChar, encodeChar, decodeU32_encodeU32 _ hb, Char.ofNat_toNat]

theorem decodeChars_encodeChars (cs : List Char) (r : List Byte) :
    decodeChars cs.length (encodeChars cs ++ r) = some (cs, r) := by
  induction cs with
  | nil => simp [encodeChars, decodeChars]
  | cons c cs ih =>
      simp [encodeChars, decodeChars, List.append_assoc, decodeChar_encodeChar, ih]

theorem decodeString_encodeString (s : String) (h : s.data.length < 2 ^ 32)
    (r : List Byte) : decodeString (encodeString s ++ r) = some (s, r) := by
  simp only [encodeString, List.append_assoc, decodeString,
    decodeU32_encodeU32 _ h, decodeChars_encodeChars]

theorem decodeBlob_encodeBlob (b : Bson) (h : b.length < 2 ^ 32)
    (r : List Byte) : decodeBlob (encodeBlob b ++ r) = some (b, r) := by
  simp only [encodeBlob, List.append_assoc, decodeBlob, decodeU32_encodeU32 _ h]
  rw [if_pos (by simp), List.take_left, List.drop_left]

theorem decodeI64_encodeI64 (i : Int) (h1 : -(2 ^ 63) ≤ i) (h2 : i < 2 ^ 63)
    (r : List Byte) : decodeI64 (encodeI64 i ++ r) = some (i, r) := by
  have hn : (i % (2 : Int) ^ 64).toNat < 2 ^ 64 := by omega
  simp only [encodeI64, decodeI64, decodeU64_encodeU64 _ hn]
  refine congrArg some (Prod.ext ?_ rfl)
  show (if (i % (2 : Int) ^ 64).toNat < 2 ^ 63
      then ((i % (2 : Int) ^ 64).toNat : Int)
      else ((i % (2 : Int) ^ 64).toNat : Int) - 2 ^ 64) = i
  split <;> omega

/-! ## Message model of `caro-bus-common/src/messages.rs` -/

/-- The current protocol version (`PROTOCOL_VERSION` in `messages.rs`). -/
def PROTOCOL_VERSION : Int := 1

/-- The sentinel sequence number `0xDEADBEEF` (`INVALID_SEQ` in `messages.rs`). -/
def INVALID_SEQ : Nat := 0xDEADBEEF

/-- The `ServiceMessage` enum of `messages.rs`. -/
inductive ServiceMessage
  | Register (protocol_version : Int) (service_name : String)
  | Connect (peer_service_name : String)
  | IncomingPeerFd (peer_service_name : String)
deriving DecidableEq, Repr

/-- The `Response` enum of `messages.rs`. -/
inductive Response
  | Ok
  | Shutdown (reason : String)
  | Return (doc : Bson)
  | Signal (doc : Bson)
  | Error (e : BusError)
deriving DecidableEq, Repr

/-- The `MessageBody` enum of `messages.rs`. -/
inductive MessageBody
  | ServiceMessage (m : ServiceMessage)
  | Response (r : Response)
  | MethodCall (caller_name method_name : String) (params : Bson)
  | SignalSubscription (subscriber_name signal_name : String)
deriving DecidableEq, Repr

/-- The `Message` struct of `messages.rs`: a `u64` sequence number and a body. -/
structure Message where
  seq : Nat
  body : MessageBody
deriving DecidableEq, Repr

/-! ## Serialization of messages

Modelled from the spec: `Message::bytes` delegates to the external bson
crate, which is not part of the sources.  Per the spec's wire-format section,
a message is a self-describing binary document whose first four bytes are a
little-endian signed 32-bit length that includes those four bytes; the
payload carries the fields of the data model.  The encoders below realize
that contract with tag bytes for the variants. -/

/-- Payload encoding of a `ServiceMessage`. -/
def encodeServiceMessage : ServiceMessage → List Byte
  | .Register pv name => 0 :: (encodeI64 pv ++ encodeString name)
  | .Connect name => 1 :: encodeString name
  | .IncomingPeerFd name => 2 :: encodeString name

/-- Consume a `ServiceMessage` payload. -/
def decodeServiceMessage : List Byte → Option (ServiceMessage × List Byte)
  | t :: l =>
      if t = 0 then
        match decodeI64 l with
        | some (pv, r1) =>
            match decodeString r1 with
            | some (name, r2) => some (.Register pv name, r2)
            | none => none
        | none => none
      else if t = 1 then
        match decodeString l with
        | some (name, r1) => some (.Connect name, r1)
        | none => none
      else if t = 2 then
        match decodeString l with
        | some (name, r1) => some (.IncomingPeerFd name, r1)
        | none => none
      else none
  | [] => none

/-- Payload encoding of a `Response`. -/
def encodeError : BusError → List Byte
  | .InvalidProtocol => [0]
  | .NotAllowed => [1]
  | .ServiceNotFound => [2]
  | .NameAlreadyRegistered => [3]
  | .AlreadyRegistered => [4]
  | .Internal => [5]

/-- Consume a `BusError` payload. -/
def decodeError : List Byte → Option (BusError × List Byte)
  | t :: l =>
      if t = 0 then some (.InvalidProtocol, l)
      else if t = 1 then some (.NotAllowed, l)
      else if t = 2 then some (.ServiceNotFound, l)
      else if t = 3 then some (.NameAlreadyRegistered, l)
      else if t = 4 then some (.AlreadyRegistered, l)
      else if t = 5 then some (.Internal, l)
      else none
  | [] => none

/-- Payload encoding of a `Response`. -/
def encodeResponse : Response → List Byte
  | .Ok => [0]
  | .Shutdown s => 1 :: encodeString s
  | .Return d => 2 :: encodeBlob d
  | .Signal d => 3 :: encodeBlob d
  | .Error e => 4 :: encodeError e

/-- Consume a `Response` payload. -/
def decodeResponse : List Byte → Option (Response × List Byte)
  | t :: l =>
      if t = 0 then some (.Ok, l)
      else if t = 1 then
        match decodeString l with
        | some (s, r) => some (.Shutdown s, r)
        | none => none
      else if t = 2 then
        match decodeBlob l with
        | some (d, r) => some (.Return d, r)
        | none => none
      else if t = 3 then
        match decodeBlob l with
        | some (d, r) => some (.Signal d, r)
        | none => none
      else if t = 4 then
        match decodeError l with
        | some (e, r) => some (.Error e, r)
        | none => none
      else none
  | [] => none

/-- Payload encoding of a `MessageBody`. -/
def encodeMessageBody : MessageBody → List Byte
  | .ServiceMessage m => 0 :: encodeServiceMessage m
  | .Response r => 1 :: encodeResponse r
  | .MethodCall caller method params =>
      2 :: (encodeString caller ++ encodeString method ++ encodeBlob params)
  | .SignalSubscription subscriber signal =>
      3 :: (encodeString subscriber ++ encodeString signal)

/-- Consume a `MessageBody` payload. -/
def decodeMessageBody : List Byte → Option (MessageBody × List Byte)
  | t :: l =>
      if t = 0 then
        match decodeServiceMessage l with
        | some (m, r) => some (.ServiceMessage m, r)
        | none => none
      else if t = 1 then
        match decodeResponse l with
        | some (resp, r) => some (.Response resp, r)
        | none => none
      else if t = 2 then
        match decodeString l with
        | some (caller, r1) =>
            match decodeString r1 with
            | some (method, r2) =>
                match decodeBlob r2 with
                | some (params, r3) => some (.MethodCall caller method params, r3)
                | none => none
            | none => none
        | none => none
      else if t = 3 then
        match decodeString l with
        | some (subscriber, r1) =>
            match decodeString r1 with
            | some (signal, r2) => some (.SignalSubscription subscriber signal, r2)
            | none => none
        | none => none
      else none
  | [] => none

/-- Serialization of a whole `Message` minus the length prefix. -/
def encodeMessagePayload (m : Message) : List Byte :=
  encodeU64 m.seq ++ encodeMessageBody m.body

/-- Consume a whole `Message` minus the length prefix. -/
def decodeMessagePayload (l : List Byte) : Option (Message × List Byte) :=
  match decodeU64 l with
  | some (seq, r) =>
      match decodeMessageBody r with
      | some (b, r2) => some (⟨seq, b⟩, r2)
      | none => none
  | none => none

/-- The source's `Message::bytes`: serialize into a length-prefixed document,
the prefix counting the whole frame including itself. -/
def Message.bytes (m : Message) : List Byte :=
  let payload := encodeMessagePayload m
  encodeU32 (payload.length + 4) ++ payload

/-- Modelled from the spec: `bson::from_slice` of the external bson crate.
It reads one self-describing document from the front of the slice — the
embedded length must not exceed the slice — and ignores trailing bytes. -/
def fromSlice (buf : List Byte) : Option Message :=
  match decodeU32 buf with
  | some (len, rest) =>
      if len < 4 then none
      else if buf.length < len then none
      else
        match decodeMessagePayload (rest.take (len - 4)) with
        | some (m, []) => some m
        | _ => none
  | none => none

/-- Well-formedness of the integer and length fields appearing in a body:
every field fits the machine width it is serialized at. -/
def MessageBody.wf : MessageBody → Bool
  | .ServiceMessage (.Register pv name) =>
      decide (-(2 ^ 63) ≤ pv) && decide (pv < 2 ^ 63)
        && decide (name.data.length < 2 ^ 32)
  | .ServiceMessage (.Connect name) => decide (name.data.length < 2 ^ 32)
  | .ServiceMessage (.IncomingPeerFd name) => decide (name.data.length < 2 ^ 32)
  | .Response .Ok => true
  | .Response (.Shutdown s) => decide (s.data.length < 2 ^ 32)
  | .Response (.Return d) => decide (d.length < 2 ^ 32)
  | .Response (.Signal d) => decide (d.length < 2 ^ 32)
  | .Response (.Error _) => true
  | .MethodCall caller method params =>
      decide (caller.data.length < 2 ^ 32) && decide (method.data.length < 2 ^ 32)
        && decide (params.length < 2 ^ 32)
  | .SignalSubscription subscriber signal =>
      decide (subscriber.data.length < 2 ^ 32) && decide (signal.data.length < 2 ^ 32)

/-- A legal message: its fields fit their wire widths and the whole frame
fits the signed 32-bit length prefix. -/
def Message.wf (m : Message) : Bool :=
  decide (m.seq < 2 ^ 64) && m.body.wf && decide (m.bytes.length < 2 ^ 31)

/-- The `EitherMessage` result enum of `parse_buffer`. -/
inductive EitherMessage
  | FullMessage (m : Message)
  | NeedMoreData (n : Nat)
deriving DecidableEq, Repr

/-- Rust's `i32 as usize` on a 64-bit platform, applied to the raw 32-bit
length-prefix value: non-negative values pass through, negative values are
sign-extended to huge unsigned numbers. -/
def asUsizeI32 (v : Nat) : Nat :=
  if v < 2 ^ 31 then v else v + (2 ^ 64 - 2 ^ 32)

/-- The source's `parse_buffer` over a byte buffer.  The buffer is threaded
explicitly: the second component is the buffer after the call (`advance`d by
`frame_len` exactly on a full message).  The `try_into` error branch of the
source is unreachable once four header bytes are present and is absorbed by
the final `NeedMoreData(4)`, which is also where the decode-failure
`TODO: Recover` branch of the source falls through. -/
def parse_buffer (buffer : List Byte) : EitherMessage × List Byte :=
  if buffer.length < 4 then (.NeedMoreData 4, buffer)
  else
    let frame_len := asUsizeI32 (readU32 buffer)
    if frame_len ≤ buffer.length then
      match fromSlice buffer with
      | some frame => (.FullMessage frame, buffer.drop frame_len)
      | none => (.NeedMoreData 4, buffer)
    else
      (.NeedMoreData (frame_len - buffer.length), buffer)

/-! ## Round trip of the serialization -/

theorem decodeError_encodeError (e : BusError) (r : List Byte) :
    decodeError (encodeError e ++ r) = some (e, r) := by
  cases e <;> simp +decide [encodeError, decodeError]

theorem decodeServiceMessage_encode (m : ServiceMessage)
    (h : (MessageBody.ServiceMessage m).wf = true) (r : List Byte) :
    decodeServiceMessage (encodeServiceMessage m ++ r) = some (m, r) := by
  cases m with
  | Register pv name =>
      simp only [MessageBody.wf, Bool.and_eq_true, decide_eq_true_eq] at h
      obtain ⟨⟨h1, h2⟩, h3⟩ := h
      simp +decide [encodeServiceMessage, decodeServiceMessage, List.append_assoc,
        decodeI64_encodeI64 pv h1 h2, decodeString_encodeString name h3]
  | Connect name =>
      simp only [MessageBody.wf, decide_eq_true_eq] at h
      simp +decide [encodeServiceMessage, decodeServiceMessage, List.append_assoc,
        decodeString_encodeString name h]
  | IncomingPeerFd name =>
      simp only [MessageBody.wf, decide_eq_true_eq] at h
      simp +decide [encodeServiceMessage, decodeServiceMessage, List.append_assoc,
        decodeString_encodeString name h]

theorem decodeResponse_encode (resp : Response)
    (h : (MessageBody.Response resp).wf = true) (r : List Byte) :
    decodeResponse (encodeResponse resp ++ r) = some (resp, r) := by
  cases resp with
  | Ok => simp +decide [encodeResponse, decodeResponse]
  | Shutdown s =>
      simp only [MessageBody.wf, decide_eq_true_eq] at h
      simp +decide [encodeResponse, decodeResponse, List.append_assoc,
        decodeString_encodeString s h]
  | Return d =>
      simp only [MessageBody.wf, decide_eq_true_eq] at h
      simp +decide [encodeResponse, decodeResponse, List.append_assoc,
        decodeBlob_encodeBlob d h]
  | Signal d =>
      simp only [MessageBody.wf, decide_eq_true_eq] at h
      simp +decide [encodeResponse, decodeResponse, List.append_assoc,
        decodeBlob_encodeBlob d h]
  | Error e =>
      simp +decide [encodeResponse, decodeResponse, List.append_assoc,
        decodeError_encodeError e]

theorem decodeMessageBody_encode (b : MessageBody) (h : b.wf = true)
    (r : List Byte) : decodeMessageBody (encodeMessageBody b ++ r) = some (b, r) := by
  cases b with
  | ServiceMessage m =>
      simp +decide [encodeMessageBody, decodeMessageBody, List.append_assoc,
        decodeServiceMessage_encode m h]
  | Response resp =>
      simp +decide [encodeMessageBody, decodeMessageBody, List.append_assoc,
        decodeResponse_encode resp h]
  | MethodCall caller method params =>
      simp only [MessageBody.wf, Bool.and_eq_true, decide_eq_true_eq] at h
      obtain ⟨⟨h1, h2⟩, h3⟩ := h
      simp +decide [encodeMessageBody, decodeMessageBody, List.append_assoc,
        decodeString_encodeString caller h1, decodeString_encodeString method h2,
        decodeBlob_encodeBlob params h3]
  | SignalSubscription subscriber signal =>
      simp only [MessageBody.wf, Bool.and_eq_true, decide_eq_true_eq] at h
      obtain ⟨h1, h2⟩ := h
      simp +decide [encodeMessageBody, decodeMessageBody, List.append_assoc,
        decodeString_encodeString subscriber h1, decodeString_encodeString signal h2]

theorem decodeMessagePayload_encode (m : Message) (hseq : m.seq < 2 ^ 64)
    (hbody : m.body.wf = true) (r : List Byte) :
    decodeMessagePayload (encodeMessagePayload m ++ r) = some (m, r) := by
  simp only [encodeMessagePayload, List.append_assoc, decodeMessagePayload,
    decodeU64_encodeU64 _ hseq, decodeMessageBody_encode m.body hbody r]

theorem fromSlice_bytes (m : Message) (h : m.wf = true) :
    fromSlice m.bytes = some m := by
  simp only [Message.wf, Bool.and_eq_true, decide_eq_true_eq] at h
  obtain ⟨⟨hseq, hbody⟩, hlen⟩ := h
  have hbytes : m.bytes
      = encodeU32 ((encodeMessagePayload m).length + 4) ++ encodeMessagePayload m := rfl
  have hblen : m.bytes.length = (encodeMessagePayload m).length + 4 := by
    rw [hbytes]; simp [encodeU32]
  have hL32 : (encodeMessagePayload m).length + 4 < 2 ^ 32 := by omega
  rw [hbytes]
  simp only [fromSlice, decodeU32_encodeU32 _ hL32]
  rw [if_neg (by omega), if_neg (by rw [← hbytes, hblen]; omega)]
  have ht : (encodeMessagePayload m).length + 4 - 4 = (encodeMessagePayload m).length := by
    omega
  rw [ht, List.take_length]
  have hpay : decodeMessagePayload (encodeMessagePayload m) = some (m, []) := by
    have hx := decodeMessagePayload_encode m hseq hbody []
    simpa using hx
  rw [hpay]

/-! ## Behaviour of `parse_buffer` -/

theorem le_asUsizeI32 (v : Nat) : v ≤ asUsizeI32 v := by
  unfold asUsizeI32; split <;> omega

theorem parse_buffer_short {b : List Byte} (h : b.length < 4) :
    parse_buffer b = (.NeedMoreData 4, b) := by
  simp only [parse_buffer, if_pos h]

theorem parse_buffer_incomplete {b : List Byte} (h4 : 4 ≤ b.length)
    (h : b.length < asUsizeI32 (readU32 b)) :
    parse_buffer b = (.NeedMoreData (asUsizeI32 (readU32 b) - b.length), b) := by
  simp only [parse_buffer]
  rw [if_neg (by omega), if_neg (by omega)]

theorem parse_buffer_decode_fail {b : List Byte} (h4 : 4 ≤ b.length)
    (hc : asUsizeI32 (readU32 b) ≤ b.length) (hf : fromSlice b = none) :
    parse_buffer b = (.NeedMoreData 4, b) := by
  simp only [parse_buffer, hf]
  rw [if_neg (by omega), if_pos hc]

theorem parse_buffer_decode_ok {b : List Byte} {m : Message} (h4 : 4 ≤ b.length)
    (hc : asUsizeI32 (readU32 b) ≤ b.length) (hf : fromSlice b = some m) :
    parse_buffer b = (.FullMessage m, b.drop (asUsizeI32 (readU32 b))) := by
  simp only [parse_buffer, hf]
  rw [if_neg (by omega), if_pos hc]

theorem decodeMessagePayload_min {l : List Byte} {m : Message}
    (h : decodeMessagePayload l = some (m, [])) : 9 ≤ l.length := by
  unfold decodeMessagePayload at h
  split at h
  next seq r h64 =>
    split at h
    next b r2 hb =>
      cases h
      have e1 := decodeU64_length h64
      have hr : r ≠ [] := by
        intro he
        rw [he] at hb
        simp [decodeMessageBody] at hb
      have hr1 : 1 ≤ r.length := by
        cases r with
        | nil => exact absurd rfl hr
        | cons a t => simp
      omega
    · cases h
  · cases h

theorem fromSlice_min {buf : List Byte} {m : Message}
    (h : fromSlice buf = some m) : 13 ≤ buf.length := by
  unfold fromSlice at h
  split at h
  next len rest hdec =>
    split at h
    · cases h
    · split at h
      · cases h
      · split at h
        next m' hpay =>
          have h9 := decodeMessagePayload_min hpay
          have htake : (rest.take (len - 4)).length = min (len - 4) rest.length := by
            simp
          have hlen := decodeU32_length hdec
          omega
        · cases h
  · cases h

theorem parse_buffer_full_min {c : List Byte} {m : Message}
    (h : (parse_buffer c).1 = .FullMessage m) : 13 ≤ c.length := by
  by_cases h4 : c.length < 4
  · rw [parse_buffer_short h4] at h
    simp at h
  · by_cases hc : asUsizeI32 (readU32 c) ≤ c.length
    · cases hf : fromSlice c with
      | some fm => exact fromSlice_min hf
      | none =>
          rw [parse_buffer_decode_fail (by omega) hc hf] at h
          simp at h
    · rw [parse_buffer_incomplete (by omega) (by omega)] at h
      simp at h

theorem readU32_append : ∀ (b e : List Byte), 4 ≤ b.length →
    readU32 (b ++ e) = readU32 b
  | _ :: _ :: _ :: _ :: _, _, _ => rfl
  | [], _, h => by simp at h
  | [_], _, h => by simp at h
  | [_, _], _, h => by simp at h
  | [_, _, _], _, h => by simp at h

theorem fromSlice_append : ∀ (b e : List Byte), 4 ≤ b.length →
    readU32 b ≤ b.length → fromSlice (b ++ e) = fromSlice b
  | b0 :: b1 :: b2 :: b3 :: t, e, _, hc => by
      have hc' : b0.val + 256 * b1.val + 65536 * b2.val + 16777216 * b3.val
          ≤ t.length + 4 := by
        have := hc
        simp only [readU32, List.length_cons] at this
        omega
      show fromSlice (b0 :: b1 :: b2 :: b3 :: (t ++ e)) = _
      unfold fromSlice
      simp only [decodeU32]
      by_cases hl4 : b0.val + 256 * b1.val + 65536 * b2.val + 16777216 * b3.val < 4
      · rw [if_pos hl4, if_pos hl4]
      · rw [if_neg hl4, if_neg hl4,
          if_neg (by simp only [List.length_cons, List.length_append]; omega),
          if_neg (by simp only [List.length_cons]; omega),
          List.take_append_of_le_length (by omega)]
  | [], _, h4, _ => by simp at h4
  | [_], _, h4, _ => by simp at h4
  | [_, _], _, h4, _ => by simp at h4
  | [_, _, _], _, h4, _ => by simp at h4

/-- C5: for every legal message m, parsing the buffer obtained by encoding m
yields FullMessage(m) and consumes the entire buffer, leaving no residual
bytes. -/
theorem parse_buffer_roundtrip (m : Message) (h : m.wf = true) :
    parse_buffer m.bytes = (.FullMessage m, []) := by
  have hwf := h
  simp only [Message.wf, Bool.and_eq_true, decide_eq_true_eq] at hwf
  obtain ⟨⟨hseq, hbody⟩, hlen⟩ := hwf
  have hbytes : m.bytes
      = encodeU32 ((encodeMessagePayload m).length + 4) ++ encodeMessagePayload m := rfl
  have hblen : m.bytes.length = (encodeMessagePayload m).length + 4 := by
    rw [hbytes]; simp [encodeU32]
  have hread : readU32 m.bytes = (encodeMessagePayload m).length + 4 := by
    rw [hbytes]; exact readU32_encodeU32 _ (by omega) _
  have hau : asUsizeI32 (readU32 m.bytes) = m.bytes.length := by
    rw [hread]; unfold asUsizeI32; rw [if_pos (by omega)]; omega
  have hfrom := fromSlice_bytes m h
  rw [parse_buffer_decode_ok (by omega) (le_of_eq hau) hfrom, hau, List.drop_length]

/-- Witness for C5 at a concrete message. -/
theorem parse_buffer_roundtrip_witness :
    parse_buffer (Message.bytes ⟨0, .Response .Ok⟩)
      = (.FullMessage ⟨0, .Response .Ok⟩, []) :=
  parse_buffer_roundtrip ⟨0, .Response .Ok⟩ (by decide)

/-- C4: the buffer `[5, 0, 0, 0, 1]` is a complete-length frame (the decoded
frame length 5 equals the buffer length) whose payload fails to decode, yet
`parse_buffer` asks for more data and leaves the buffer in place — its
result type has no fatal-error variant at all, so the peer is not
disconnected, contrary to the specified fatal protocol error.  This is the
source's `TODO: Recover` branch. -/
theorem parse_buffer_decode_failure_asks_more :
    parse_buffer [(5 : Byte), 0, 0, 0, 1]
        = (.NeedMoreData 4, [(5 : Byte), 0, 0, 0, 1])
    ∧ asUsizeI32 (readU32 [(5 : Byte), 0, 0, 0, 1])
        = ([(5 : Byte), 0, 0, 0, 1] : List Byte).length
    ∧ fromSlice [(5 : Byte), 0, 0, 0, 1] = none := by
  decide

/-- Counterexample to C6 as stated: on this complete-length frame with an
undecodable payload the parser returns NeedMoreData(4) although at least 4
header bytes are present and frame_len − buffer.len() = 0 ≠ 4. -/
theorem parse_buffer_needmore_formula_fails :
    (parse_buffer [(5 : Byte), 0, 0, 0, 1]).1 = .NeedMoreData 4
    ∧ 4 ≤ ([(5 : Byte), 0, 0, 0, 1] : List Byte).length
    ∧ asUsizeI32 (readU32 [(5 : Byte), 0, 0, 0, 1])
        - ([(5 : Byte), 0, 0, 0, 1] : List Byte).length ≠ 4 := by
  decide

/-- C6 (amended): whenever the parser returns NeedMoreData(n) the buffer is
left unchanged; n = 4 when fewer than 4 header bytes are present; n =
frame_len − buffer.len() when the header is present but the buffer is
shorter than frame_len; n = 4 when a complete-length frame fails to decode;
and in every case at least n more bytes are required before any parse
attempt can yield a complete message. -/
theorem parse_buffer_needmore_spec (b : List Byte) (n : Nat)
    (h : (parse_buffer b).1 = .NeedMoreData n) :
    (parse_buffer b).2 = b
    ∧ (b.length < 4 → n = 4)
    ∧ (4 ≤ b.length → b.length < asUsizeI32 (readU32 b)
        → n = asUsizeI32 (readU32 b) - b.length)
    ∧ (4 ≤ b.length → asUsizeI32 (readU32 b) ≤ b.length → n = 4)
    ∧ ∀ extra : List Byte, extra.length < n →
        ∀ m : Message, (parse_buffer (b ++ extra)).1 ≠ .FullMessage m := by
  by_cases h4 : b.length < 4
  · have hn : n = 4 := by
      rw [parse_buffer_short h4] at h
      simpa using h.symm
    subst hn
    refine ⟨by rw [parse_buffer_short h4], fun _ => rfl,
      fun h4' _ => absurd h4' (by omega), fun h4' _ => absurd h4' (by omega),
      fun extra hex m hfull => ?_⟩
    have := parse_buffer_full_min hfull
    simp only [List.length_append] at this
    omega
  · by_cases hc : asUsizeI32 (readU32 b) ≤ b.length
    · cases hf : fromSlice b with
      | some fm =>
          rw [parse_buffer_decode_ok (by omega) hc hf] at h
          simp at h
      | none =>
          have hn : n = 4 := by
            rw [parse_buffer_decode_fail (by omega) hc hf] at h
            simpa using h.symm
          subst hn
          refine ⟨by rw [parse_buffer_decode_fail (by omega) hc hf],
            fun hlt => absurd hlt h4, fun _ hlt => absurd hlt (by omega),
            fun _ _ => rfl, fun extra hex m hfull => ?_⟩
          have hru : readU32 b ≤ b.length :=
            le_trans (le_asUsizeI32 _) hc
          have hfe : fromSlice (b ++ extra) = none := by
            rw [fromSlice_append b extra (by omega) hru]; exact hf
          have hr : readU32 (b ++ extra) = readU32 b :=
            readU32_append b extra (by omega)
          rw [parse_buffer_decode_fail
            (by simp only [List.length_append]; omega)
            (by rw [hr]; simp only [List.length_append]; omega) hfe] at hfull
          simp at hfull
    · have hn : n = asUsizeI32 (readU32 b) - b.length := by
        rw [parse_buffer_incomplete (by omega) (by omega)] at h
        simpa using h.symm
      refine ⟨by rw [parse_buffer_incomplete (by omega) (by omega)],
        fun hlt => absurd hlt h4, fun _ _ => hn, fun _ hle => absurd hle hc,
        fun extra hex m hfull => ?_⟩
      have hr : readU32 (b ++ extra) = readU32 b :=
        readU32_append b extra (by omega)
      rw [parse_buffer_incomplete
        (by simp only [List.length_append]; omega)
        (by rw [hr]; simp only [List.length_append]; omega)] at hfull
      simp at hfull

/-- Witness for C6 at the empty buffer. -/
theorem parse_buffer_needmore_spec_witness :
    (parse_buffer ([] : List Byte)).2 = [] :=
  (parse_buffer_needmore_spec [] 4 (by decide)).1

/-! ## The call registry of `caro-bus-common/src/call_registry.rs` -/

/-- Key-unique association list standing for the registry's
`HashMap<u64, Sender<Message>>`; a sink (`Sender`) is identified by an
opaque number. -/
def lookupCall (seq : Nat) : List (Nat × Nat) → Option Nat
  | [] => none
  | (s, c) :: t => if s = seq then some c else lookupCall seq t

/-- Removal of a key, the model of `HashMap::remove`. -/
def eraseCall (seq : Nat) (l : List (Nat × Nat)) : List (Nat × Nat) :=
  l.filter (fun p => p.1 != seq)

/-- Insertion of a binding, the model of `HashMap::insert` (replaces any
previous binding of the key). -/
def insertCall (seq cb : Nat) (l : List (Nat × Nat)) : List (Nat × Nat) :=
  (seq, cb) :: eraseCall seq l

/-- The test of `resolve`:
`matches!(message.body(), MessageBody::Response(Response::Signal(_)))`. -/
def isSignal : MessageBody → Bool
  | .Response (.Signal _) => true
  | _ => false

/-- The `CallRegistry` struct: the atomic `u64` sequence counter and the
seq → sink table. -/
structure CallRegistry where
  seq_counter : Nat
  calls : List (Nat × Nat)
deriving DecidableEq, Repr

/-- A fresh registry (`CallRegistry::new`). -/
def CallRegistry.new : CallRegistry := ⟨0, []⟩

/-- The source's `CallRegistry::call`.  The socket write is an external
effect, modelled by the `write` argument applied to the serialized bytes.
Mirroring the source: the seq is drawn from the counter (`fetch_add`,
wrapping at 2 ^ 64) and stamped into the message first, the bytes are then
written, and only a successful write is followed by the table insertion;
the `?` on a write error returns that error with the table untouched. -/
def CallRegistry.call (write : List Byte → Except String Unit)
    (self : CallRegistry) (message : Message) (callback : Nat) :
    Except String Unit × CallRegistry :=
  let seq := self.seq_counter
  let message' := { message with seq := seq }
  let afterSeq : CallRegistry :=
    { self with seq_counter := (self.seq_counter + 1) % 2 ^ 64 }
  match write (Message.bytes message') with
  | .error e => (.error e, afterSeq)
  | .ok _ => (.ok (), { afterSeq with calls := insertCall seq callback afterSeq.calls })

/-- The source's `CallRegistry::resolve`: look the seq up, hand the sink
back to the caller (delivery is external), and remove the entry unless the
response is a `Signal`. -/
def CallRegistry.resolve (self : CallRegistry) (message : Message) :
    CallRegistry × Option Nat :=
  let remove_call := !(isSignal message.body)
  let seq := message.seq
  let maybe_sender := lookupCall seq self.calls
  let self' :=
    if remove_call then { self with calls := eraseCall seq self.calls } else self
  (self', maybe_sender)

/-- The source's `CallRegistry::has_call`. -/
def CallRegistry.has_call (self : CallRegistry) (seq : Nat) : Bool :=
  (lookupCall seq self.calls).isSome

theorem lookupCall_eraseCall_self (seq : Nat) (l : List (Nat × Nat)) :
    lookupCall seq (eraseCall seq l) = none := by
  induction l with
  | nil => rfl
  | cons p t ih =>
      by_cases hp : p.1 = seq
      · have hb : (p.1 != seq) = false := by simp [hp]
        simpa [eraseCall, List.filter, hb] using ih
      · have hb : (p.1 != seq) = true := by simp [hp]
        simpa [eraseCall, List.filter, hb, lookupCall, hp] using ih

theorem lookupCall_eraseCall_ne (seq s : Nat) (hne : s ≠ seq)
    (l : List (Nat × Nat)) :
    lookupCall s (eraseCall seq l) = lookupCall s l := by
  induction l with
  | nil => rfl
  | cons p t ih =>
      by_cases hp : p.1 = seq
      · have hb : (p.1 != seq) = false := by simp [hp]
        have hps : ¬ p.1 = s := by omega
        simpa [eraseCall, List.filter, hb, lookupCall, hps] using ih
      · have hb : (p.1 != seq) = true := by simp [hp]
        by_cases hs : p.1 = s
        · have hbs : (s != seq) = true := by simp [hne]
          simp [eraseCall, List.filter, hb, lookupCall, hs, hbs]
        · simpa [eraseCall, List.filter, hb, lookupCall, hs] using ih

theorem eraseCall_of_lookup_none (seq : Nat) (l : List (Nat × Nat))
    (h : lookupCall seq l = none) : eraseCall seq l = l := by
  induction l with
  | nil => rfl
  | cons p t ih =>
      by_cases hp : p.1 = seq
      · rw [show p = (p.1, p.2) from rfl] at h
        simp [lookupCall, hp] at h
      · have hb : (p.1 != seq) = true := by simp [hp]
        rw [show p = (p.1, p.2) from rfl] at h
        simp only [lookupCall, if_neg hp] at h
        have ht := ih h
        simp only [eraseCall] at ht ⊢
        rw [List.filter_cons, hb]
        simp [ht]

/-- C2: in `CallRegistry::call` the sequence number is drawn from the counter
before the socket write — the bytes handed to the write are those of the
message stamped with the old counter value — and the seq → sink entry is
inserted only after the write succeeds; a write error is returned as is and
leaves the call table exactly as it was, with no entry for the drawn seq. -/
theorem call_seq_before_write_insert_after (write : List Byte → Except String Unit)
    (r : CallRegistry) (m : Message) (cb : Nat) :
    (∀ e, write (Message.bytes { m with seq := r.seq_counter }) = .error e →
        CallRegistry.call write r m cb
          = (.error e, { r with seq_counter := (r.seq_counter + 1) % 2 ^ 64 })
          ∧ (CallRegistry.call write r m cb).2.calls = r.calls)
    ∧ (write (Message.bytes { m with seq := r.seq_counter }) = .ok () →
        CallRegistry.call write r m cb
          = (.ok (), ⟨(r.seq_counter + 1) % 2 ^ 64,
              insertCall r.seq_counter cb r.calls⟩)) := by
  constructor
  · intro e he
    constructor <;> simp only [CallRegistry.call, he]
  · intro hok
    simp only [CallRegistry.call, hok]

/-- Witness for C2 at a concrete registry and a failing write. -/
theorem call_seq_before_write_insert_after_witness :
    CallRegistry.call (fun _ => .error "io") CallRegistry.new ⟨0, .Response .Ok⟩ 7
      = (.error "io", ⟨1, []⟩) :=
  (((call_seq_before_write_insert_after (fun _ => .error "io")
    CallRegistry.new ⟨0, .Response .Ok⟩ 7).1 "io" rfl).1)

/-- C3: with a pending entry at message.seq, `resolve` removes the entry
exactly when the response body is not a Signal: afterwards has_call is false
for every non-Signal body and stays true for a Signal body. -/
theorem resolve_terminal_removes_signal_keeps (r : CallRegistry) (m : Message)
    (h : r.has_call m.seq = true) :
    (isSignal m.body = false → (r.resolve m).1.has_call m.seq = false)
    ∧ (isSignal m.body = true → (r.resolve m).1.has_call m.seq = true) := by
  constructor
  · intro hsig
    simp [CallRegistry.resolve, hsig, CallRegistry.has_call,
      lookupCall_eraseCall_self]
  · intro hsig
    simpa [CallRegistry.resolve, hsig, CallRegistry.has_call] using h

/-- Witness for C3 at a concrete registry. -/
theorem resolve_terminal_removes_signal_keeps_witness :
    ((⟨1, [(0, 7)]⟩ : CallRegistry).resolve ⟨0, .Response .Ok⟩).1.has_call 0
      = false :=
  (resolve_terminal_removes_signal_keeps ⟨1, [(0, 7)]⟩ ⟨0, .Response .Ok⟩
    (by decide)).1 (by decide)

/-- C9: `resolve` touches at most the call-table entry at message.seq — every
other seq keeps its has_call value — and when message.seq is absent the
registry is left entirely unchanged, whatever the message body. -/
theorem resolve_frame_conditions (r : CallRegistry) (m : Message) :
    (∀ s, s ≠ m.seq → (r.resolve m).1.has_call s = r.has_call s)
    ∧ (r.has_call m.seq = false → (r.resolve m).1 = r) := by
  constructor
  · intro s hs
    by_cases hsig : isSignal m.body
    · simp [CallRegistry.resolve, hsig]
    · simp [CallRegistry.resolve, hsig, CallRegistry.has_call,
        lookupCall_eraseCall_ne m.seq s hs]
  · intro habs
    by_cases hsig : isSignal m.body
    · simp [CallRegistry.resolve, hsig]
    · have hnone : lookupCall m.seq r.calls = none := by
        cases hl : lookupCall m.seq r.calls with
        | none => rfl
        | some c =>
            rw [CallRegistry.has_call, hl] at habs
            simp at habs
      simp [CallRegistry.resolve, hsig, eraseCall_of_lookup_none _ _ hnone]

/-- Witness for C9 at a concrete registry with no pending entry. -/
theorem resolve_frame_conditions_witness :
    ((⟨3, [(1, 7)]⟩ : CallRegistry).resolve ⟨0, .Response .Ok⟩).1
      = (⟨3, [(1, 7)]⟩ : CallRegistry) :=
  (resolve_frame_conditions ⟨3, [(1, 7)]⟩ ⟨0, .Response .Ok⟩).2 (by decide)

/-! ## The hub's per-client handler, `hub/src/client.rs`

The hub is written against an older shape of the common message module
(`Message::ServiceRequest`, a payload-free `Response::Shutdown`), which is
referenced but not among the sources; that shape is modelled here inside the
`Hub` namespace from the code's usage and the spec's data model.  The
`permissions` module is likewise absent: per the spec it is a pure
predicate, so the handlers take it as a function argument. -/

namespace Hub

/-- The `ServiceRequest` enum the hub matches on. -/
inductive ServiceRequest
  | Register (protocol_version : Int) (service_name : String)
  | Connect (service_name : String)
deriving DecidableEq, Repr

/-- The hub-side `Response` enum; the code uses `Ok`, a payload-free
`Shutdown` and `Error`, with the data-carrying responses of the spec's data
model alongside. -/
inductive Response
  | Ok
  | Shutdown
  | Return (doc : Bson)
  | Signal (doc : Bson)
  | Error (e : BusError)
deriving DecidableEq, Repr

/-- The hub-side `Message` enum: service requests, responses, and the data
messages (which the hub only ever rejects). -/
inductive Message
  | ServiceRequest (r : ServiceRequest)
  | Response (r : Response)
  | MethodCall (caller_name method_name : String) (params : Bson)
  | SignalSubscription (subscriber_name signal_name : String)
deriving DecidableEq, Repr

/-- Does the message sit in the `Message::ServiceRequest` arm that
`handle_client_message` accepts? -/
def Message.isServiceRequest : Message → Bool
  | .ServiceRequest _ => true
  | _ => false

/-- The `ClientRequest` forwarded to the hub core loop on `hub_tx`; the hub
core (in `hub.rs`, not among the sources) owns the name table, so a
registration can only create a name-table entry if such a request is sent. -/
structure ClientRequest where
  uuid : Nat
  service_name : String
  message : Message
deriving DecidableEq, Repr

/-- The mutable per-client state of `Client`: its uuid and the shared
`service_name` cell. -/
structure Client where
  uuid : Nat
  service_name : String
deriving DecidableEq, Repr

/-- `Client::run` creates the handle with an empty service name
(`String::from("")`). -/
def Client.run (uuid : Nat) : Client := ⟨uuid, ""⟩

/-- The source's `Client::handle_registration_message`.  The permission
oracle `service_name_allowed` is passed in (modelled from the spec, §4.4);
the source queries it with the literal `"socket_addr"` as the peer
credential.  Results are the reply (`None` when the request is forwarded to
the hub core), the updated client, and the `ClientRequest`s sent on
`hub_tx`. -/
def Client.handle_registration_message
    (service_name_allowed : String → String → Bool) (self : Client)
    (protocol_version : Int) (service_name : String) :
    Option Response × Client × List ClientRequest :=
  if protocol_version ≠ PROTOCOL_VERSION then
    (some (.Error .InvalidProtocol), self, [])
  else if !(service_name_allowed "socket_addr" service_name) then
    (some (.Error .InvalidProtocol), self, [])
  else
    ((none : Option Response), { self with service_name := service_name },
      [⟨self.uuid, service_name,
        .ServiceRequest (.Register protocol_version service_name)⟩])

/-- The source's `Client::handle_connect_message`; `connection_allowed` is
the second permission-oracle predicate, passed in. -/
def Client.handle_connect_message
    (connection_allowed : String → String → Bool) (self : Client)
    (service_name : String) :
    Option Response × Client × List ClientRequest :=
  if !(connection_allowed self.service_name service_name) then
    (some (.Error .NotAllowed), self, [])
  else
    ((none : Option Response), self,
      [⟨self.uuid, service_name, .ServiceRequest (.Connect service_name)⟩])

/-- The source's `Client::handle_client_message`: dispatch `ServiceRequest`s
to the two handlers and reply `Error(InvalidProtocol)` to everything else. -/
def Client.handle_client_message
    (service_name_allowed connection_allowed : String → String → Bool)
    (self : Client) (message : Message) :
    Option Response × Client × List ClientRequest :=
  match message with
  | .ServiceRequest (.Register pv name) =>
      Client.handle_registration_message service_name_allowed self pv name
  | .ServiceRequest (.Connect name) =>
      Client.handle_connect_message connection_allowed self name
  | _ => (some (.Error .InvalidProtocol), self, [])

end Hub

/-- C1: when the permission oracle denies the requested name on a
current-version Register, the code replies `Error(InvalidProtocol)` — not
the specified `Error(NotAllowed)` — while indeed sending nothing to the hub
core (so no name-table entry) and leaving the client's name unassigned. -/
theorem hub_denied_name_replies_invalid_protocol :
    Hub.Client.handle_registration_message (fun _ name => name != "svc.x")
        (Hub.Client.run 0) 1 "svc.x"
      = (some (.Error .InvalidProtocol), Hub.Client.run 0, [])
    ∧ (Hub.Client.handle_registration_message (fun _ name => name != "svc.x")
        (Hub.Client.run 0) 1 "svc.x").1 ≠ some (.Error .NotAllowed) := by
  decide

/-- Counterexample to C7 as stated: two valid Register messages in a row
each overwrite the assigned service name, so it is not written exactly
once. -/
theorem service_name_written_twice :
    ((Hub.Client.handle_registration_message (fun _ _ => true)
        (Hub.Client.run 0) 1 "svc.a").2.1.service_name = "svc.a")
    ∧ ((Hub.Client.handle_registration_message (fun _ _ => true)
        (Hub.Client.handle_registration_message (fun _ _ => true)
          (Hub.Client.run 0) 1 "svc.a").2.1 1 "svc.b").2.1.service_name
        = "svc.b")
    ∧ "svc.a" ≠ "svc.b" := by
  decide

/-- C7 (amended): the assigned service name starts empty and is overwritten
by every Register whose protocol version matches and whose name the oracle
allows — before the hub core's name-collision decision, which happens on the
forwarded request — while a Register failing the version or permission check
leaves the client unchanged. -/
theorem service_name_write_conditions
    (service_name_allowed : String → String → Bool) (c : Hub.Client)
    (pv : Int) (name : String) (u : Nat) :
    (Hub.Client.run u).service_name = ""
    ∧ (pv = PROTOCOL_VERSION → service_name_allowed "socket_addr" name = true →
        (Hub.Client.handle_registration_message service_name_allowed c pv
          name).2.1.service_name = name)
    ∧ (pv ≠ PROTOCOL_VERSION →
        (Hub.Client.handle_registration_message service_name_allowed c pv
          name).2.1 = c)
    ∧ (service_name_allowed "socket_addr" name = false →
        (Hub.Client.handle_registration_message service_name_allowed c pv
          name).2.1 = c) := by
  refine ⟨rfl, ?_, ?_, ?_⟩
  · intro hv ha
    simp [Hub.Client.handle_registration_message, hv, ha]
  · intro hv
    simp [Hub.Client.handle_registration_message, hv]
  · intro ha
    by_cases hv : pv = PROTOCOL_VERSION
    · simp [Hub.Client.handle_registration_message, hv, ha]
    · simp [Hub.Client.handle_registration_message, hv]

/-- Witness for C7 at a concrete denying oracle. -/
theorem service_name_write_conditions_witness :
    (Hub.Client.handle_registration_message (fun _ _ => false)
      (Hub.Client.run 0) 1 "svc.a").2.1 = Hub.Client.run 0 :=
  (service_name_write_conditions (fun _ _ => false) (Hub.Client.run 0)
    1 "svc.a" 0).2.2.2 rfl

/-- Counterexample to C8 as stated: a Connect from an Unregistered client is
not answered with `Error(InvalidProtocol)`; it is dispatched to the connect
handler (here, with a default-deny oracle, answered `Error(NotAllowed)`). -/
theorem connect_unregistered_not_invalid_protocol :
    (Hub.Client.handle_client_message (fun _ _ => true) (fun _ _ => false)
        (Hub.Client.run 0)
        (Hub.Message.ServiceRequest (Hub.ServiceRequest.Connect "svc.b"))).1
      = some (.Error .NotAllowed)
    ∧ (Hub.Client.handle_client_message (fun _ _ => true) (fun _ _ => false)
        (Hub.Client.run 0)
        (Hub.Message.ServiceRequest (Hub.ServiceRequest.Connect "svc.b"))).1
      ≠ some (.Error .InvalidProtocol) := by
  decide

/-- C8 (amended): every incoming message outside the `ServiceRequest` arm —
method calls, signal subscriptions and responses — is answered with
`Error(InvalidProtocol)` while the client state is unchanged and nothing is
forwarded to the hub core; a Connect, however, is dispatched to the connect
handler regardless of registration state. -/
theorem non_service_request_invalid_protocol
    (service_name_allowed connection_allowed : String → String → Bool)
    (c : Hub.Client) (m : Hub.Message) (h : m.isServiceRequest = false) :
    Hub.Client.handle_client_message service_name_allowed connection_allowed
        c m = (some (.Error .InvalidProtocol), c, []) := by
  cases m with
  | ServiceRequest r => simp [Hub.Message.isServiceRequest] at h
  | Response r => rfl
  | MethodCall a b p => rfl
  | SignalSubscription a b => rfl

/-- Witness for C8 at a concrete data message. -/
theorem non_service_request_invalid_protocol_witness :
    Hub.Client.handle_client_message (fun _ _ => true) (fun _ _ => true)
        (Hub.Client.run 0) (Hub.Message.MethodCall "a" "m" [])
      = (some (.Error .InvalidProtocol), Hub.Client.run 0, []) :=
  non_service_request_invalid_protocol (fun _ _ => true) (fun _ _ => true)
    (Hub.Client.run 0) (Hub.Message.MethodCall "a" "m" []) rfl

/-! ## The typed state wrapper of `caro-service/src/state.rs` -/

namespace CaroService

/-- The result of an operation that may panic: panics are explicit values,
distinct from any returned error. -/
inductive Outcome (α : Type)
  | panicked (msg : String)
  | ok (v : α)
deriving DecidableEq, Repr

/-- Modelled from the spec: `caro_bus_lib::state::State`, the client
library's typed state primitive layered over subscriptions (§6); not among
the sources.  Only the held value matters to the wrapper. -/
structure BusState (T : Type) where
  value : T
deriving DecidableEq, Repr

/-- Modelled from the spec: setting the library state stores the value. -/
def BusState.set {T : Type} (_ : BusState T) (value : T) : BusState T :=
  ⟨value⟩

/-- Modelled from the spec: getting the library state reads the value. -/
def BusState.get {T : Type} (s : BusState T) : T := s.value

/-- The `State<T>` wrapper of `state.rs`: an optional registered internal
state. -/
structure State (T : Type) where
  internal : Option (BusState T)
deriving DecidableEq, Repr

/-- The source's `State::new`. -/
def State.new {T : Type} : State T := ⟨none⟩

/-- The source's `State::register`.  The process-wide `SERVICE_BUS` holder is
passed as `bus` (`none` models a service that never connected a bus, on
which the source panics); a connected bus registers the initial value. -/
def State.register {T : Type} (self : State T) (initial_value : T)
    (bus : Option Unit) : Outcome (Except BusError (State T)) :=
  if self.internal.isSome then .ok (.error BusError.AlreadyRegistered)
  else
    match bus with
    | some _ => .ok (.ok ⟨some ⟨initial_value⟩⟩)
    | none => .panicked "Not registered"

/-- The source's `State::set`: panics on an unregistered handle. -/
def State.set {T : Type} (self : State T) (value : T) : Outcome (State T) :=
  match self.internal with
  | none => .panicked "Not registered"
  | some internal => .ok ⟨some (internal.set value)⟩

/-- The source's `State::get`: panics on an unregistered handle. -/
def State.get {T : Type} (self : State T) : Outcome T :=
  match self.internal with
  | none => .panicked "Not registered"
  | some internal => .ok internal.get

end CaroService

/-- C10: on a handle whose registration never succeeded (its internal state
is still `None`, as on a fresh `State::new`), both `set` and `get` take the
`panic!("Not registered")` branch — an explicit panic, not an error return
value — and that branch is reachable from the public constructor. -/
theorem state_unregistered_set_get_panics (T : Type) (s : CaroService.State T)
    (v : T) (h : s.internal = none) :
    s.set v = .panicked "Not registered"
    ∧ s.get = .panicked "Not registered"
    ∧ (CaroService.State.new : CaroService.State T).internal = none := by
  refine ⟨?_, ?_, rfl⟩
  · simp [CaroService.State.set, h]
  · simp [CaroService.State.get, h]

/-- Witness for C10: a freshly constructed handle panics on `set`. -/
theorem state_unregistered_set_get_panics_witness :
    (CaroService.State.new : CaroService.State Nat).set 0
      = .panicked "Not registered" :=
  (state_unregistered_set_get_panics Nat CaroService.State.new 0 rfl).1
